import Mathlib

/-!
Shallow embedding of `app/main.py`, a small read-only SQLite-file reader.

The Python program works over one open binary file with `seek`/`read`
calls.  We model the file as an immutable byte list together with a cursor
(`FileHandle`); every read returns the bytes obtained plus the advanced
handle, mirroring Python's sequential reads.  Reads past the end of the
data return fewer bytes (possibly none), exactly like Python's
`file.read`.  `int.from_bytes(b, "big")` of an empty byte string is `0`.

Machine integers never overflow in the Python source (Python ints are
unbounded), so values are plain `Nat`/`Int`.  Text decoding
(`bytes.decode("utf-8")`) is modelled byte-for-byte with `Char.ofNat`,
which is exact on the ASCII payloads used throughout.
-/

set_option maxRecDepth 1000000

set_option maxHeartbeats 2000000

/-- A decoded column value, mirroring Python's `Union[int, str]`. -/
inductive PyVal where
  | int (n : Nat)
  | str (s : String)
deriving DecidableEq, Repr, Inhabited

/-- The value-kind strings `"int"`, `"text"`, `"blob"` used by
`SerialType.get_size`. -/
inductive SerialKind where
  | int
  | text
  | blob
deriving DecidableEq, Repr, Inhabited

/-- The open database file: its bytes and the current cursor position. -/
structure FileHandle where
  data : List Nat
  pos : Nat
deriving DecidableEq, Repr, Inhabited

/-- The bytes from the cursor to the end of the file. -/
def FileHandle.remaining (f : FileHandle) : List Nat :=
  f.data.drop f.pos

/-- `file.read(n)` for `n ≥ 0`: returns at most `n` bytes and advances the
cursor by the number of bytes actually read. -/
def FileHandle.read (f : FileHandle) (n : Nat) : List Nat × FileHandle :=
  (f.remaining.take n, ⟨f.data, min (f.pos + n) f.data.length⟩)

/-- Python's `file.read(n)` also accepts a negative `n`, which reads the
whole rest of the file (this is reachable through `SerialType.get_size`
on serial codes 10 and 11, whose computed length is `-1`). -/
def FileHandle.readPy (f : FileHandle) (n : Int) : List Nat × FileHandle :=
  if n < 0 then (f.remaining, ⟨f.data, f.data.length⟩) else f.read n.toNat

/-- `int.from_bytes(bs, byteorder="big")`; `0` on the empty byte string. -/
def bytesToNat (bs : List Nat) : Nat :=
  bs.foldl (fun a b => a * 256 + b) 0

/-- `bs.decode("utf-8")`, modelled byte-for-byte (exact for ASCII). -/
def bytesToString (bs : List Nat) : String :=
  String.mk (bs.map Char.ofNat)

/-- `int.from_bytes(file.read(n), byteorder="big")`, the idiom used for
every fixed-width big-endian field. -/
def FileHandle.readInt (f : FileHandle) (n : Nat) : Nat × FileHandle :=
  let r := f.read n
  (bytesToNat r.1, r.2)

/-- A list comprehension of `n` sequential fixed-width big-endian reads,
e.g. the cell-pointer array. -/
def FileHandle.readInts (f : FileHandle) (width : Nat) : Nat → List Nat × FileHandle
  | 0 => ([], f)
  | n + 1 =>
    let r := f.readInt width
    let rest := r.2.readInts width n
    (r.1 :: rest.1, rest.2)

/-- The body of `Varint.parse`'s `while` loop, entered after a byte whose
continuation bit (bit 7) is set, acting on the stream of remaining bytes.
An exhausted stream reads as `b""`, i.e. the value `0`, whose continuation
bit is clear, so the loop stops one step after the stream runs out. -/
def Varint.parseLoop (acc : Nat) : List Nat → Nat × List Nat
  | [] => ((acc <<< 7) + (0 &&& 0x7F), [])
  | b :: rest =>
    let acc' := (acc <<< 7) + (b &&& 0x7F)
    if (b >>> 7) &&& 1 = 1 then Varint.parseLoop acc' rest else (acc', rest)

/-- `Varint.parse` from `main.py`, on the stream of remaining bytes:
read one byte, keep its low 7 bits, and while the continuation bit of the
byte just read is set, shift the accumulator left 7 and add the next
byte's low 7 bits.  Returns the value and the unconsumed rest. -/
def Varint.parse : List Nat → Nat × List Nat
  | [] => (0 &&& 0x7F, [])
  | b :: rest =>
    let ans := b &&& 0x7F
    if (b >>> 7) &&& 1 = 1 then Varint.parseLoop ans rest else (ans, rest)

/-- `Varint.parse(file)` on a file handle: run the decoder on the
remaining bytes and advance the cursor over the consumed ones. -/
def Varint.parseFile (f : FileHandle) : Nat × FileHandle :=
  let r := Varint.parse f.remaining
  (r.1, ⟨f.data, f.data.length - r.2.length⟩)

/-- `SerialType.get_size`: the dict of codes 0–9 (all tagged `"int"`),
then text for odd codes and blob for even codes, with Python floor
division — codes 10 and 11 therefore produce length `-1`. -/
def SerialType.get_size (size : Nat) : Int × SerialKind :=
  if size = 0 then (0, SerialKind.int)
  else if size = 1 then (1, SerialKind.int)
  else if size = 2 then (2, SerialKind.int)
  else if size = 3 then (3, SerialKind.int)
  else if size = 4 then (4, SerialKind.int)
  else if size = 5 then (6, SerialKind.int)
  else if size = 6 then (8, SerialKind.int)
  else if size = 7 then (8, SerialKind.int)
  else if size = 8 then (0, SerialKind.int)
  else if size = 9 then (0, SerialKind.int)
  else if size % 2 = 1 then (((size : Int) - 13).fdiv 2, SerialKind.text)
  else (((size : Int) - 12).fdiv 2, SerialKind.blob)

/-- `read_record_value_from_file`: an `"int"` field is a fixed-width
big-endian integer, anything else (`"text"` and `"blob"` alike) is read
and UTF-8 decoded. -/
def read_record_value_from_file (f : FileHandle) (size_type : Int × SerialKind) :
    PyVal × FileHandle :=
  if size_type.2 = SerialKind.int then
    let r := f.readPy size_type.1
    (PyVal.int (bytesToNat r.1), r.2)
  else
    let r := f.readPy size_type.1
    (PyVal.str (bytesToString r.1), r.2)

/-- The 8-or-12-byte B-tree page header, as `BTreePageHeader.init_header`
reads it.  `type` keeps the raw 1-byte read (Python compares the `bytes`
object itself); `right_most_pointer` is read only for the interior kinds
`0x02` and `0x05` and is `0` otherwise (the Python object simply lacks
the attribute then, and no code path reads it in that case). -/
structure BTreePageHeader where
  type : List Nat
  free_block : Nat
  number_of_cells : Nat
  start_cell_content : Nat
  fragmented_bytes : Nat
  right_most_pointer : Nat
deriving DecidableEq, Repr, Inhabited

/-- `BTreePageHeader.init_header`: sequential reads of kind, free block,
cell count, content start, fragmented bytes, then the right-most pointer
for the two interior kinds. -/
def BTreePageHeader.init_header (f : FileHandle) : BTreePageHeader × FileHandle :=
  let t := f.read 1
  let fb := t.2.readInt 2
  let nc := fb.2.readInt 2
  let scc := nc.2.readInt 2
  let frag := scc.2.readInt 1
  if t.1 = [0x02] ∨ t.1 = [0x05] then
    let rmp := frag.2.readInt 4
    (⟨t.1, fb.1, nc.1, scc.1, frag.1, rmp.1⟩, rmp.2)
  else
    (⟨t.1, fb.1, nc.1, scc.1, frag.1, 0⟩, frag.2)

/-- The `[SerialType.get_size(Varint.parse(file)) for _ in range(n)]`
comprehension: `n` sequential serial-type reads. -/
def readSerialTypes (f : FileHandle) : Nat → List (Int × SerialKind) × FileHandle
  | 0 => ([], f)
  | n + 1 =>
    let p := Varint.parseFile f
    let rest := readSerialTypes p.2 n
    (SerialType.get_size p.1 :: rest.1, rest.2)

/-- The `[read_record_value_from_file(file, st) for st in column_sizes]`
comprehension: sequential value reads driven by the size list. -/
def readValues (f : FileHandle) : List (Int × SerialKind) → List PyVal × FileHandle
  | [] => ([], f)
  | st :: rest =>
    let r := read_record_value_from_file f st
    let rr := readValues r.2 rest
    (r.1 :: rr.1, rr.2)

/-- A decoded table-leaf record, as `Record.init_record` builds it. -/
structure Record where
  payload_size : Nat
  row_id : Nat
  header_size : Nat
  column_sizes : List (Int × SerialKind)
  values : List PyVal
deriving DecidableEq, Repr, Inhabited

/-- `Record.init_record`: payload-size, row-id and header-size varints,
then `file.read(1)` discards one byte (the first column's serial code,
assumed to be the one-byte integer-primary-key placeholder), then exactly
`header_size - 2` serial-type codes are read, and the values are the row
id followed by one value per remaining code. -/
def Record.init_record (f : FileHandle) : Record × FileHandle :=
  let p1 := Varint.parseFile f
  let p2 := Varint.parseFile p1.2
  let p3 := Varint.parseFile p2.2
  let skip := p3.2.read 1
  let cs := readSerialTypes skip.2 (p3.1 - 2)
  let vs := readValues cs.2 cs.1
  (⟨p1.1, p2.1, p3.1, cs.1, PyVal.int p2.1 :: vs.1⟩, vs.2)

/-- Split a character list at every occurrence of `c`, accumulating the
current segment in reverse — Python's `str.split(sep)` for a one-character
separator, on the underlying characters. -/
def splitListAux (c : Char) : List Char → List Char → List (List Char)
  | [], acc => [acc.reverse]
  | x :: xs, acc =>
    if x = c then acc.reverse :: splitListAux c xs []
    else splitListAux c xs (x :: acc)

/-- Python's `s.split(c)` for a one-character separator. -/
def pySplitOn (s : String) (c : Char) : List String :=
  (splitListAux c s.data []).map String.mk

/-- Split a character list at every whitespace character. -/
def splitWsAux : List Char → List Char → List (List Char)
  | [], acc => [acc.reverse]
  | x :: xs, acc =>
    if x.isWhitespace then acc.reverse :: splitWsAux xs []
    else splitWsAux xs (x :: acc)

/-- Python's argumentless `s.split()`: split on whitespace runs and drop
the empty segments. -/
def pySplitTokens (s : String) : List String :=
  ((splitWsAux s.data []).filter (fun t => t ≠ [])).map String.mk

/-- Python's `s.strip()`: drop leading and trailing whitespace. -/
def pyStrip (s : String) : String :=
  String.mk (((s.data.dropWhile Char.isWhitespace).reverse.dropWhile
    Char.isWhitespace).reverse)

/-- The column-name extraction of `SchemaRow.__init__`: the text between
the first two `(`-splits of the creation statement, minus its final
character, split on commas, keeping each segment's first
whitespace-delimited token; position is the segment index.  Out-of-range
list accesses (which would raise in Python) default to `""`. -/
def extractColumns (sql : String) : List (String × Nat) :=
  let inner := String.mk (((pySplitOn sql '(').getD 1 "").data.dropLast)
  let cols := (pySplitOn inner ',').map (fun col => (pySplitTokens col).headD "")
  cols.enum.map (fun p => (p.2, p.1))

/-- The text of a `PyVal` expected to be a string (calling Python string
methods on an `int` would raise; the default is never reached on the
flows modelled here). -/
def pyValText : PyVal → String
  | PyVal.str s => s
  | PyVal.int n => toString n

/-- One schema-catalog row: the five values read in order plus the
column-name-to-position dict derived from the creation statement. -/
structure SchemaRow where
  typ : PyVal
  name : PyVal
  table_name : PyVal
  rootpage : PyVal
  sql : PyVal
  columns : List (String × Nat)
deriving DecidableEq, Repr, Inhabited

/-- `SchemaRow.__init__`: five sequential `read_record_value_from_file`
calls driven by the five size pairs, then the column extraction. -/
def SchemaRow.init (f : FileHandle) (sizes : List (Int × SerialKind)) :
    SchemaRow × FileHandle :=
  let r0 := read_record_value_from_file f (sizes.getD 0 (0, SerialKind.int))
  let r1 := read_record_value_from_file r0.2 (sizes.getD 1 (0, SerialKind.int))
  let r2 := read_record_value_from_file r1.2 (sizes.getD 2 (0, SerialKind.int))
  let r3 := read_record_value_from_file r2.2 (sizes.getD 3 (0, SerialKind.int))
  let r4 := read_record_value_from_file r3.2 (sizes.getD 4 (0, SerialKind.int))
  (⟨r0.1, r1.1, r2.1, r3.1, r4.1, extractColumns (pyValText r4.1)⟩, r4.2)

/-- `SqliteSchema.get_schema`: for each cell location, seek there, parse
the payload-size, row-id and record-header-size varints, read exactly
five serial-type codes, decode the row, and store it under its `name`.
The Python dict is modelled as the assignment list in insertion order;
lookups take the latest binding. -/
def SqliteSchema.get_schema (file : List Nat) (locations : List Nat) :
    List (PyVal × SchemaRow) :=
  locations.map (fun location =>
    let f : FileHandle := ⟨file, location⟩
    let p1 := Varint.parseFile f
    let p2 := Varint.parseFile p1.2
    let p3 := Varint.parseFile p2.2
    let sizes := readSerialTypes p3.2 5
    let obj := (SchemaRow.init sizes.2 sizes.1).1
    (obj.name, obj))

/-- Python dict lookup over the assignment list: the latest assignment to
a key wins.  A missing key would raise `KeyError` in Python; the default
row is never reached on the flows modelled here. -/
def pyDictGet (objects : List (PyVal × SchemaRow)) (key : PyVal) : SchemaRow :=
  (((objects.reverse).find? (fun p => p.1 = key)).map (fun p => p.2)).getD default

/-- Dict lookup in a column-index dict, same convention. -/
def columnsGet (columns : List (String × Nat)) (key : String) : Nat :=
  (((columns.reverse).find? (fun p => p.1 = key)).map (fun p => p.2)).getD 0

/-- `SqliteSchema.get_ind_of_column`: `objects[table].columns[column.strip()]`. -/
def SqliteSchema.get_ind_of_column (objects : List (PyVal × SchemaRow))
    (table column : String) : Nat :=
  columnsGet (pyDictGet objects (PyVal.str table)).columns (pyStrip column)

/-- `DatabaseHeader.get_page_size`: the 2-byte big-endian value at byte
offset 16. -/
def DatabaseHeader.get_page_size (file : List Nat) : Nat :=
  (FileHandle.readInt ⟨file, 16⟩ 2).1

/-- The cell locations `main` reads for the schema: parse the page-1
header at offset 100, then read `number_of_cells` 2-byte pointers
starting at the fixed offset 108 (correct only when page 1 is a leaf,
whose header is 8 bytes long). -/
def mainLocations (file : List Nat) : List Nat :=
  let hp := BTreePageHeader.init_header ⟨file, 100⟩
  ((FileHandle.readInts ⟨file, 108⟩ 2 hp.1.number_of_cells)).1

/-- The schema objects as `main` loads them:
`SqliteSchema(database_file, locations)` over `mainLocations`. -/
def loadSchema (file : List Nat) : List (PyVal × SchemaRow) :=
  SqliteSchema.get_schema file (mainLocations file)

/-- `Table.get_records`: seek to `page_offset * page_size`, parse the
page header, read `number_of_cells` 2-byte cell pointers, then per cell
seek to `cell + total_offset`; an interior table page (`0x05`) reads a
4-byte child page number and recurses into `child - 1`, a leaf table
page (`0x0d`) decodes one record, and any other kind contributes
nothing.  The right-most pointer is never followed.  The Python
recursion has no explicit bound; the extra `fuel` argument makes the
recursion structural and is chosen larger than the tree height at every
use (each recursive call only shrinks it). -/
def Table.get_records : Nat → List Nat → Nat → Nat → List Record
  | 0, _, _, _ => []
  | fuel + 1, file, page_offset, page_size =>
    let total_offset := page_offset * page_size
    let hp := BTreePageHeader.init_header ⟨file, total_offset⟩
    let cell_pointers := (hp.2.readInts 2 hp.1.number_of_cells).1
    (cell_pointers.map (fun cell =>
      if hp.1.type = [0x05] then
        Table.get_records fuel file
          ((FileHandle.readInt ⟨file, cell + total_offset⟩ 4).1 - 1) page_size
      else if hp.1.type = [0x0d] then
        [(Record.init_record ⟨file, cell + total_offset⟩).1]
      else [])).flatten

/-- The numeric content of a `PyVal` used in arithmetic (`rootpage`);
Python would raise on a string there, and that flow is never reached. -/
def pyToNat : PyVal → Nat
  | PyVal.int n => n
  | PyVal.str _ => 0

/-- Python `==` between decoded values and the predicate literal: two
ints or two strings compare by value; an int never equals a str. -/
def pyEqB : PyVal → PyVal → Bool
  | PyVal.int a, PyVal.int b => a == b
  | PyVal.str a, PyVal.str b => a == b
  | _, _ => false

/-- Python `str(...)` of a decoded value, as used when printing a row. -/
def pyStr : PyVal → String
  | PyVal.int n => toString n
  | PyVal.str s => s

/-- The comparison operator of the single supported predicate. -/
inductive CmpOp where
  | eq
  | ne
deriving DecidableEq, Repr

/-- `main`'s `select ... from ...` branch, with the command string
already split into column list, table name and optional predicate by the
out-of-scope CLI text matching: resolve the table's root page, collect
its records with `Table.get_records`, optionally filter with Python
`==` / `!=` against the literal, then project the requested columns
through `get_ind_of_column`, stringified as printed.  `fuel` is passed
through to the walker. -/
def selectRows (fuel : Nat) (file : List Nat) (slt_table : String)
    (slt_columns : List String) (pred : Option (String × CmpOp × String)) :
    List (List String) :=
  let page_size := DatabaseHeader.get_page_size file
  let objects := loadSchema file
  let table_page := pyToNat (pyDictGet objects (PyVal.str slt_table)).rootpage
  let records := Table.get_records fuel file (table_page - 1) page_size
  let records := match pred with
    | none => records
    | some pc =>
      let index := SqliteSchema.get_ind_of_column objects slt_table pc.1
      match pc.2.1 with
      | CmpOp.eq => records.filter
          (fun rec => pyEqB (rec.values.getD index default) (PyVal.str pc.2.2))
      | CmpOp.ne => records.filter
          (fun rec => !(pyEqB (rec.values.getD index default) (PyVal.str pc.2.2)))
  records.map (fun rec =>
    slt_columns.map (fun column =>
      pyStr (rec.values.getD (SqliteSchema.get_ind_of_column objects slt_table column)
        default)))

/-- `main`'s `select count(*) from ...` branch: resolve the table's root
page, parse the page header there, and report its cell count — whatever
the page kind. -/
def tableRowCount (file : List Nat) (table : String) : Nat :=
  let page_size := DatabaseHeader.get_page_size file
  let objects := loadSchema file
  let table_page := pyToNat (pyDictGet objects (PyVal.str table)).rootpage
  (BTreePageHeader.init_header ⟨file, (table_page - 1) * page_size⟩).1.number_of_cells

/-- The symmetric varint encoder built for round-trip testing: the plain
base-128 big-endian groups that `Varint.parse` reads, continuation bit on
every byte except the last.  `varintEncodeAux v` is the (possibly empty)
run of continuation bytes encoding `v`; the low byte is appended by
`varintEncode`. -/
def varintEncodeAux (v : Nat) : List Nat :=
  if v = 0 then []
  else varintEncodeAux (v / 128) ++ [128 + v % 128]
decreasing_by exact Nat.div_lt_self (Nat.pos_of_ne_zero (by assumption)) (by omega)

/-- Encode a value for `Varint.parse`: continuation bytes for the high
groups, then the low 7 bits with a clear continuation bit. -/
def varintEncode (v : Nat) : List Nat :=
  varintEncodeAux (v / 128) ++ [v % 128]

/-- Modelled from the spec (§4.7 and §4.8 `tableRowCount`), which is not
implemented by the source: the total cell count over all leaf pages
reachable from a 1-based root page number, descending through every
interior cell's child page and the right-most pointer. -/
def Spec.leafCellSum : Nat → List Nat → Nat → Nat → Nat
  | 0, _, _, _ => 0
  | fuel + 1, file, pageNumber, page_size =>
    let off := (pageNumber - 1) * page_size
    let hp := BTreePageHeader.init_header ⟨file, off⟩
    if hp.1.type = [0x0d] then hp.1.number_of_cells
    else if hp.1.type = [0x05] then
      let cells := (hp.2.readInts 2 hp.1.number_of_cells).1
      (cells.map (fun c =>
        Spec.leafCellSum fuel file ((FileHandle.readInt ⟨file, c + off⟩ 4).1)
          page_size)).sum
        + Spec.leafCellSum fuel file hp.1.right_most_pointer page_size
    else 0

/-- Modelled from the spec (§4.5), which the source does not implement:
count serial-type varints until the running byte count (starting at the
header-size varint's own width) reaches the declared header length.
`fuel` bounds the loop; every reachable call site passes at least the
header length, which suffices because each parsed varint consumes at
least one byte while any remain. -/
def Spec.countSerialVarints : Nat → FileHandle → Nat → Nat → Nat
  | 0, _, _, _ => 0
  | fuel + 1, f, consumed, header_size =>
    if header_size ≤ consumed then 0
    else
      let p := Varint.parseFile f
      1 + Spec.countSerialVarints fuel p.2 (consumed + (p.2.pos - f.pos)) header_size

/-- Modelled from the spec (§4.5): the number of columns of the record at
`off`, counting serial-type varints until the record header's declared
byte length is exhausted. -/
def Spec.recordColumnCount (file : List Nat) (off : Nat) : Nat :=
  let f : FileHandle := ⟨file, off⟩
  let p1 := Varint.parseFile f
  let p2 := Varint.parseFile p1.2
  let p3 := Varint.parseFile p2.2
  Spec.countSerialVarints p3.1 p3.2 (p3.2.pos - p2.2.pos) p3.1

/-- ASCII bytes of a string literal. -/
def strBytes (s : String) : List Nat :=
  s.data.map Char.toNat

/-- Zero-pad a byte list up to a page boundary. -/
def padTo (n : Nat) (l : List Nat) : List Nat :=
  l ++ List.replicate (n - l.length) 0

/-- A 128-byte leaf table page holding one minimal record with the given
row id: header, one cell pointer to page-relative offset 10, and the cell
`[payload 2, rowid, header length 2, one discarded serial code 0]`. -/
def leafPage128 (rid : Nat) : List Nat :=
  padTo 128 ([0x0d, 0, 0, 0, 1, 0, 0, 0] ++ [0, 10] ++ [2, rid, 2, 0])

/-- Two-level table B-tree used against the walker: page 1 (offset 0) is
an interior table page with two cells pointing at child pages 2 and 3 and
right-most pointer 4; pages 2, 3 and 4 are leaf pages with row ids 11, 22
and 33.  Page size 128. -/
def twoLevelTreeFile : List Nat :=
  padTo 128 ([0x05, 0, 0, 0, 2, 0, 0, 0] ++ [0, 0, 0, 4]
      ++ [0, 16, 0, 20] ++ [0, 0, 0, 2] ++ [0, 0, 0, 3])
    ++ leafPage128 11 ++ leafPage128 22 ++ leafPage128 33

/-- A single 128-byte page whose kind byte is `0x0a` (leaf index) with a
nonzero cell count. -/
def indexPageFile : List Nat :=
  padTo 128 ([0x0a, 0, 0, 0, 1, 0, 0, 0] ++ [0, 10])

/-- The creation statement of the `fruits` example table. -/
def fruitsSql : String :=
  "CREATE TABLE fruits (id integer primary key, name text, color text)"

/-- The schema-catalog cell describing `fruits` (root page 2): varints
for payload size, row id 1 and header size 7, serial codes 23/25/25/1
and the two-byte varint `[129, 19]` (code 147, the 67-character creation
statement), then the five bodies. -/
def fruitsCatalogCell : List Nat :=
  [25 + fruitsSql.length, 1, 7, 23, 25, 25, 1] ++ [129, 19]
    ++ strBytes "table" ++ strBytes "fruits" ++ strBytes "fruits" ++ [2]
    ++ strBytes fruitsSql

/-- The `fruits` record `(1, "banana", "yellow")`: header length 4,
discarded primary-key code 0, text codes 25 and 25. -/
def bananaCell : List Nat :=
  [16, 1, 4, 0, 25, 25] ++ strBytes "banana" ++ strBytes "yellow"

/-- The `fruits` record `(2, "apple", "red")`: header length 4, discarded
primary-key code 0, text codes 23 and 19. -/
def appleCell : List Nat :=
  [12, 2, 4, 0, 23, 19] ++ strBytes "apple" ++ strBytes "red"

/-- The `fruits` database, page size 256: page 1 carries the page size at
offset 16, a leaf catalog header at 100, one cell pointer (at 108) to the
catalog cell at 150; page 2 is the `fruits` leaf with the banana and
apple records at page-relative 50 and 120. -/
def fruitsFile : List Nat :=
  padTo 256 (List.replicate 16 0 ++ [1, 0] ++ List.replicate 82 0
      ++ [0x0d, 0, 0, 0, 1, 0, 0, 0] ++ [0, 150] ++ List.replicate 40 0
      ++ fruitsCatalogCell)
    ++ padTo 256 ([0x0d, 0, 0, 0, 2, 0, 0, 0] ++ [0, 50, 0, 120]
      ++ List.replicate 38 0 ++ bananaCell ++ List.replicate 52 0 ++ appleCell)

/-- The creation statement of the single-column table `t`. -/
def tSql : String := "CREATE TABLE t (a)"

/-- The schema-catalog cell describing table `t` with root page 2. -/
def tCatalogCell : List Nat :=
  [14 + tSql.length, 1, 6, 23, 15, 15, 1, 13 + 2 * tSql.length]
    ++ strBytes "table" ++ strBytes "t" ++ strBytes "t" ++ [2] ++ strBytes tSql

/-- Page 1 of the row-count fixtures: page size 256 at offset 16, leaf
catalog header at 100, one pointer (at 108) to the `t` cell at 150. -/
def tCatalogPage : List Nat :=
  padTo 256 (List.replicate 16 0 ++ [1, 0] ++ List.replicate 82 0
    ++ [0x0d, 0, 0, 0, 1, 0, 0, 0] ++ [0, 150] ++ List.replicate 40 0
    ++ tCatalogCell)

/-- A 256-byte leaf table page holding one minimal record per given row
id, with the cell-pointer array directly after the header. -/
def leafPage256 (rids : List Nat) : List Nat :=
  padTo 256 ([0x0d, 0, 0, 0, rids.length, 0, 0, 0]
    ++ ((List.range rids.length).map
        (fun i => [0, 8 + 2 * rids.length + 4 * i])).flatten
    ++ (rids.map (fun r => [2, r, 2, 0])).flatten)

/-- Row-count fixture with a leaf root: table `t` roots at page 2, a leaf
with five records. -/
def leafCountFile : List Nat :=
  tCatalogPage ++ leafPage256 [1, 2, 3, 4, 5]

/-- Row-count fixture with an interior root: table `t` roots at page 2,
an interior page with one cell pointing at leaf page 3 (2 records) and
right-most pointer to leaf page 4 (3 records). -/
def interiorCountFile : List Nat :=
  tCatalogPage
    ++ padTo 256 ([0x05, 0, 0, 0, 1, 0, 0, 0] ++ [0, 0, 0, 4]
      ++ [0, 14] ++ [0, 0, 0, 3])
    ++ leafPage256 [1, 2] ++ leafPage256 [3, 4, 5]

/-- A table-leaf cell whose record header declares length 4 and holds the
serial codes `0` (the discarded primary-key placeholder) and the
two-byte varint `[129, 0]` (code 128, a 58-byte blob): two columns
besides the row id placeholder per the format, but `init_record` reads
`header_size - 2 = 2` codes after the discard and so also consumes the
first body byte as a third code. -/
def wideHeaderRecordBytes : List Nat :=
  [26, 7, 4, 0, 129, 0, 1] ++ List.replicate 58 97 ++ [5]

/-- A database whose schema catalog roots at an interior page: page 1's
B-tree header (at 100) has kind `0x05`, one cell, and right-most pointer
to page 2, a catalog leaf whose single cell (absolute offset 276)
describes the table `fruits`.  Bytes 0–27 hold an unrelated byte run
that `main`'s leaf-only loader ends up decoding instead: reading the
cell-pointer array at the fixed offset 108 lands inside the right-most
pointer field and yields the location 0.  Bytes 16–17 double as the page
size 256. -/
def interiorCatalogFile : List Nat :=
  padTo 256 (([26, 1, 6, 19, 19, 17, 2, 33] ++ strBytes "idx" ++ strBytes "xyz"
      ++ strBytes "zz" ++ [1, 0] ++ strBytes "aa(bb,cc)d")
      ++ List.replicate 72 0 ++ [0x05, 0, 0, 0, 1, 0, 0, 0] ++ [0, 0, 0, 2])
    ++ padTo 256 ([0x0d, 0, 0, 0, 1, 0, 0, 0] ++ [0, 20] ++ List.replicate 10 0
      ++ ([47, 1, 6, 23, 25, 25, 1, 59] ++ strBytes "table" ++ strBytes "fruits"
        ++ strBytes "fruits" ++ [3] ++ strBytes "CREATE TABLE fruits (a)"))

/-! ## Shared lemmas -/

/-- `readInts` produces exactly the requested number of values. -/
theorem FileHandle.readInts_length (w : Nat) :
    ∀ (n : Nat) (f : FileHandle), ((f.readInts w n).1).length = n := by
  intro n
  induction n with
  | zero => intro f; rfl
  | succ n ih => intro f; simp [FileHandle.readInts, ih]

/-- `readSerialTypes` produces exactly the requested number of codes. -/
theorem readSerialTypes_length :
    ∀ (n : Nat) (f : FileHandle), ((readSerialTypes f n).1).length = n := by
  intro n
  induction n with
  | zero => intro f; rfl
  | succ n ih => intro f; simp [readSerialTypes, ih]

/-- `readValues` produces one value per size pair. -/
theorem readValues_length :
    ∀ (l : List (Int × SerialKind)) (f : FileHandle),
      ((readValues f l).1).length = l.length := by
  intro l
  induction l with
  | nil => intro f; rfl
  | cons st rest ih => intro f; simp [readValues, ih]

/-- Flattening a constantly-empty map gives the empty list. -/
theorem flatten_map_nil {β : Type} (l : List β) :
    (l.map (fun _ => ([] : List Record))).flatten = [] := by
  induction l with
  | nil => rfl
  | cons b bs ih => simp [ih]

/-- Flattening a map to singletons is the map itself. -/
theorem flatten_map_singleton {β α : Type} (l : List β) (g : β → α) :
    (l.map (fun b => [g b])).flatten = l.map g := by
  induction l with
  | nil => rfl
  | cons b bs ih => simp [ih]

/-- A byte in `[128, 256)` has its continuation bit set. -/
theorem cont_bit_set {b : Nat} (h1 : 128 ≤ b) (h2 : b < 256) :
    (b >>> 7) &&& 1 = 1 := by
  rw [Nat.shiftRight_eq_div_pow, Nat.and_one_is_mod]
  have hd : b / 2 ^ 7 = 1 := by omega
  rw [hd]

/-- Once every remaining byte keeps the continuation bit set, the loop
consumes the whole stream. -/
theorem parseLoop_consumes_all :
    ∀ (bs : List Nat) (acc : Nat), (∀ b ∈ bs, 128 ≤ b ∧ b < 256) →
      (Varint.parseLoop acc bs).2 = [] := by
  intro bs
  induction bs with
  | nil => intro acc _; rfl
  | cons b rest ih =>
    intro acc hb
    have hcont : (b >>> 7) &&& 1 = 1 :=
      cont_bit_set (hb b (List.mem_cons_self b rest)).1 (hb b (List.mem_cons_self b rest)).2
    simp only [Varint.parseLoop, hcont, if_pos]
    exact ih _ (fun x hx => hb x (List.mem_cons_of_mem b hx))

/-! ## C10 -/

/-- C10: the varint decoder is total on every finite byte source — it
always returns a value and a rest — and on a source whose bytes all have
the continuation bit set it consumes everything (no nine-byte cap): the
read past the end yields the value 0, whose continuation bit is clear,
which ends the loop. -/
theorem varint_parse_total (bs : List Nat) :
    (∃ v rest, Varint.parse bs = (v, rest)) ∧
      ((∀ b ∈ bs, 128 ≤ b ∧ b < 256) → (Varint.parse bs).2 = []) := by
  constructor
  · exact ⟨(Varint.parse bs).1, (Varint.parse bs).2, rfl⟩
  · intro hb
    cases bs with
    | nil => rfl
    | cons b rest =>
      have hcont : (b >>> 7) &&& 1 = 1 :=
        cont_bit_set (hb b (List.mem_cons_self b rest)).1 (hb b (List.mem_cons_self b rest)).2
      simp only [Varint.parse, hcont, if_pos]
      exact parseLoop_consumes_all rest _ (fun x hx => hb x (List.mem_cons_of_mem b hx))

/-- Witness for C10 at a 12-byte all-continuation source: the decoder
consumes all 12 bytes, more than any nine-byte cap would allow. -/
theorem varint_parse_total_witness :
    (∀ b ∈ List.replicate 12 255, 128 ≤ b ∧ b < 256) ∧
      (Varint.parse (List.replicate 12 255)).2 = [] :=
  ⟨by decide, (varint_parse_total (List.replicate 12 255)).2 (by decide)⟩

/-! ## C4 -/

/-- C4 (amended): no decode function fails on a truncated source; a read
that starts at or past the end of the data silently yields the
zero-filled value — the varint decoder returns 0, a fixed-width integer
read returns 0, and a text or blob read returns the empty string. -/
theorem decode_past_end_zero (f : FileHandle) (h : f.data.length ≤ f.pos) (k : Int) :
    (Varint.parseFile f).1 = 0 ∧
      (read_record_value_from_file f (k, SerialKind.int)).1 = PyVal.int 0 ∧
      (read_record_value_from_file f (k, SerialKind.text)).1 = PyVal.str "" ∧
      (read_record_value_from_file f (k, SerialKind.blob)).1 = PyVal.str "" := by
  have hrem : f.remaining = [] := by
    simp [FileHandle.remaining, List.drop_eq_nil_of_le h]
  refine ⟨?_, ?_, ?_, ?_⟩
  · show (Varint.parse f.remaining).1 = 0
    rw [hrem]
    decide
  · by_cases hk : k < 0 <;>
      simp [read_record_value_from_file, FileHandle.readPy, FileHandle.read, hk,
        hrem, bytesToNat]
  · by_cases hk : k < 0 <;>
      simp [read_record_value_from_file, FileHandle.readPy, FileHandle.read, hk,
        hrem, bytesToString]
  · by_cases hk : k < 0 <;>
      simp [read_record_value_from_file, FileHandle.readPy, FileHandle.read, hk,
        hrem, bytesToString]

/-- Witness for the amended C4, at a handle seeked past the end of a
one-byte file and a requested width of 4. -/
theorem decode_past_end_zero_witness :
    (FileHandle.mk [7] 3).data.length ≤ (FileHandle.mk [7] 3).pos ∧
      ((Varint.parseFile ⟨[7], 3⟩).1 = 0 ∧
        (read_record_value_from_file ⟨[7], 3⟩ ((4 : Int), SerialKind.int)).1 = PyVal.int 0 ∧
        (read_record_value_from_file ⟨[7], 3⟩ ((4 : Int), SerialKind.text)).1 = PyVal.str "" ∧
        (read_record_value_from_file ⟨[7], 3⟩ ((4 : Int), SerialKind.blob)).1 = PyVal.str "") :=
  ⟨by decide, decode_past_end_zero ⟨[7], 3⟩ (by decide) 4⟩

/-- C4 counterexample: decoders do not fail on truncation — the varint
decoder on an empty source silently returns 0, and a 4-byte integer read
on a 1-byte source silently returns that byte's value 7 instead of
failing. -/
theorem decode_truncated_silent :
    Varint.parse ([] : List Nat) = (0, []) ∧
      (read_record_value_from_file ⟨[7], 0⟩ ((4 : Int), SerialKind.int)).1 = PyVal.int 7 ∧
      (read_record_value_from_file ⟨strBytes "ab", 0⟩ ((5 : Int), SerialKind.text)).1
        = PyVal.str "ab" := by
  decide

/-! ## C3 -/

/-- C3 (amended): the B-tree walk does not fail on a page whose kind
byte is neither `0x05` nor `0x0d` (index pages and unrecognized kinds
alike): every cell contributes nothing and the walk silently returns the
empty list. -/
theorem get_records_non_table_kind_empty (fuel : Nat) (file : List Nat)
    (page_offset page_size : Nat)
    (h5 : (BTreePageHeader.init_header ⟨file, page_offset * page_size⟩).1.type ≠ [0x05])
    (hd : (BTreePageHeader.init_header ⟨file, page_offset * page_size⟩).1.type ≠ [0x0d]) :
    Table.get_records (fuel + 1) file page_offset page_size = [] := by
  simp only [Table.get_records]
  have hfun :
      (fun cell : Nat =>
        if (BTreePageHeader.init_header ⟨file, page_offset * page_size⟩).1.type = [0x05] then
          Table.get_records fuel file
            ((FileHandle.readInt ⟨file, cell + page_offset * page_size⟩ 4).1 - 1) page_size
        else if (BTreePageHeader.init_header ⟨file, page_offset * page_size⟩).1.type = [0x0d] then
          [(Record.init_record ⟨file, cell + page_offset * page_size⟩).1]
        else []) = fun _ => ([] : List Record) :=
    funext fun c => by rw [if_neg h5, if_neg hd]
  rw [hfun, flatten_map_nil]

/-- Witness for the amended C3 at the index-page fixture. -/
theorem get_records_non_table_kind_empty_witness :
    (BTreePageHeader.init_header ⟨indexPageFile, 0 * 128⟩).1.type ≠ [0x05] ∧
      (BTreePageHeader.init_header ⟨indexPageFile, 0 * 128⟩).1.type ≠ [0x0d] ∧
      Table.get_records 9 indexPageFile 0 128 = [] :=
  ⟨by decide, by decide,
    get_records_non_table_kind_empty 8 indexPageFile 0 128 (by decide) (by decide)⟩

/-- C3 counterexample: a leaf-index page (`kind 0x0a`) with a nonzero
cell count makes the walk yield a silent empty result, not a failure —
the walk is a total function into record lists and returns `[]` here. -/
theorem get_records_index_page_silent_empty :
    Table.get_records 9 indexPageFile 0 128 = [] ∧
      (BTreePageHeader.init_header ⟨indexPageFile, 0⟩).1.type = [0x0a] ∧
      (BTreePageHeader.init_header ⟨indexPageFile, 0⟩).1.number_of_cells = 1 := by
  decide

/-! ## C1 -/

/-- C1 counterexample: on the two-level tree whose interior root has two
cell children (pages 2 and 3) and right-most pointer 4, the walk's
result is not the concatenation of all three children's records — the
right-most child's records are missing. -/
theorem get_records_omits_rightmost_child :
    Table.get_records 9 twoLevelTreeFile 0 128 ≠
        Table.get_records 9 twoLevelTreeFile 1 128
          ++ Table.get_records 9 twoLevelTreeFile 2 128
          ++ Table.get_records 9 twoLevelTreeFile 3 128 ∧
      (BTreePageHeader.init_header ⟨twoLevelTreeFile, 0⟩).1.right_most_pointer = 4 ∧
      Table.get_records 9 twoLevelTreeFile 3 128 ≠ [] := by
  decide

/-- C1 (amended): the walk converts page numbers via
`(pageNumber - 1) * pageSize` and, on an interior table page, recurses
into each of the `cellCount` cell child pages in cell-pointer order,
concatenating left-to-right — but it never follows `rightmostChildPage`:
on the two-level fixture the root's records are exactly child page 2's
records followed by child page 3's, omitting right-most child page 4's. -/
theorem get_records_concatenates_cell_children :
    Table.get_records 9 twoLevelTreeFile 0 128 =
        Table.get_records 9 twoLevelTreeFile 1 128
          ++ Table.get_records 9 twoLevelTreeFile 2 128 ∧
      (Table.get_records 9 twoLevelTreeFile 0 128).map Record.row_id = [11, 22] ∧
      (Table.get_records 9 twoLevelTreeFile 3 128).map Record.row_id = [33] := by
  decide

/-! ## C5 -/

/-- C5 counterexample: on the `fruits` fixture, a predicate over the
numeric column `id` with the literal `"1"` matches nothing — the decoded
value is the integer 1 and Python `==` between an int and a str is
false, so no textual conversion happens before comparing — whereas the
claim's comparison after converting 1 to `"1"` would keep the banana
row. -/
theorem selectRows_numeric_predicate_mismatch :
    selectRows 9 fruitsFile "fruits" ["name"] (some ("id", CmpOp.eq, "1")) = [] ∧
      (Table.get_records 9 fruitsFile 1 256).map Record.row_id = [1, 2] ∧
      ([] : List (List String)) ≠ [["banana"]] := by
  decide

/-- C5 (amended): the select path walks the table's B-tree, filters with
Python equality — string columns compare textually, numeric columns
never equal the string literal — and projects the requested columns in
the order given through the table's column index: on `fruits` with rows
`(1, banana, yellow)` and `(2, apple, red)`, selecting `name` where
`color = red` returns exactly `[[apple]]`, `color != red` returns
`[[banana]]`, and projecting `name, color` without a predicate returns
both rows in left-to-right order. -/
theorem selectRows_fruits_scenario :
    selectRows 9 fruitsFile "fruits" ["name"] (some ("color", CmpOp.eq, "red"))
        = [["apple"]] ∧
      selectRows 9 fruitsFile "fruits" ["name"] (some ("color", CmpOp.ne, "red"))
        = [["banana"]] ∧
      selectRows 9 fruitsFile "fruits" ["name", "color"] none
        = [["banana", "yellow"], ["apple", "red"]] := by
  decide

/-! ## C6 -/

/-- On a leaf root page, the walk returns exactly one record per cell
pointer, so its length is the page header's cell count. -/
theorem get_records_leaf_length (fuel : Nat) (file : List Nat) (off psz : Nat)
    (h : (BTreePageHeader.init_header ⟨file, off * psz⟩).1.type = [0x0d]) :
    (Table.get_records (fuel + 1) file off psz).length
      = (BTreePageHeader.init_header ⟨file, off * psz⟩).1.number_of_cells := by
  have h5 : (BTreePageHeader.init_header ⟨file, off * psz⟩).1.type ≠ [0x05] := by
    rw [h]; decide
  simp only [Table.get_records]
  have hfun :
      (fun cell : Nat =>
        if (BTreePageHeader.init_header ⟨file, off * psz⟩).1.type = [0x05] then
          Table.get_records fuel file
            ((FileHandle.readInt ⟨file, cell + off * psz⟩ 4).1 - 1) psz
        else if (BTreePageHeader.init_header ⟨file, off * psz⟩).1.type = [0x0d] then
          [(Record.init_record ⟨file, cell + off * psz⟩).1]
        else []) =
      fun cell : Nat => [(Record.init_record ⟨file, cell + off * psz⟩).1] :=
    funext fun c => by rw [if_neg h5, if_pos h]
  rw [hfun, flatten_map_singleton, List.length_map, FileHandle.readInts_length]

/-- C6 (amended): `tableRowCount` reads only the root page's header and
reports its cell count; when — and only guaranteed when — the root page
is a leaf, this equals the number of records the full walk returns.  The
interior-root case is settled by the counterexample: no summation over
leaves happens. -/
theorem tableRowCount_leaf_root (fuel : Nat) (file : List Nat) (table : String)
    (h : (BTreePageHeader.init_header ⟨file,
        (pyToNat (pyDictGet (loadSchema file) (PyVal.str table)).rootpage - 1) *
          DatabaseHeader.get_page_size file⟩).1.type = [0x0d]) :
    tableRowCount file table =
      (Table.get_records (fuel + 1) file
        (pyToNat (pyDictGet (loadSchema file) (PyVal.str table)).rootpage - 1)
        (DatabaseHeader.get_page_size file)).length := by
  rw [get_records_leaf_length fuel file _ _ h]
  rfl

/-- Witness for the amended C6: the leaf-rooted fixture has a root page
with five cells; `tableRowCount` reports 5, the length of the walk. -/
theorem tableRowCount_leaf_root_witness :
    (BTreePageHeader.init_header ⟨leafCountFile,
        (pyToNat (pyDictGet (loadSchema leafCountFile) (PyVal.str "t")).rootpage - 1) *
          DatabaseHeader.get_page_size leafCountFile⟩).1.type = [0x0d] ∧
      tableRowCount leafCountFile "t" =
        (Table.get_records 9 leafCountFile
          (pyToNat (pyDictGet (loadSchema leafCountFile) (PyVal.str "t")).rootpage - 1)
          (DatabaseHeader.get_page_size leafCountFile)).length ∧
      tableRowCount leafCountFile "t" = 5 :=
  ⟨by decide, tableRowCount_leaf_root 8 leafCountFile "t" (by decide), by decide⟩

/-- C6 counterexample: on the interior-rooted fixture the table has 5
data rows spread over the two leaves (2 and 3 cells), but `tableRowCount`
reports the interior root header's cell count 1 — it does not sum the
cell counts of the leaves reachable from the root, as the spec-modelled
sum exhibits. -/
theorem tableRowCount_interior_root_header_only :
    tableRowCount interiorCountFile "t" = 1 ∧
      Spec.leafCellSum 9 interiorCountFile 2 256 = 5 ∧
      (BTreePageHeader.init_header ⟨interiorCountFile, 256⟩).1.type = [0x05] ∧
      (pyDictGet (loadSchema interiorCountFile) (PyVal.str "t")).rootpage = PyVal.int 2 ∧
      (1 : Nat) ≠ 5 := by
  decide

/-! ## C7 -/

/-- Above code 9 the resolver always lands in the parity branches. -/
theorem get_size_ge_ten (c : Nat) (h10 : 10 ≤ c) :
    SerialType.get_size c =
      if c % 2 = 1 then (((c : Int) - 13).fdiv 2, SerialKind.text)
      else (((c : Int) - 12).fdiv 2, SerialKind.blob) := by
  have k0 : c ≠ 0 := by omega
  have k1 : c ≠ 1 := by omega
  have k2 : c ≠ 2 := by omega
  have k3 : c ≠ 3 := by omega
  have k4 : c ≠ 4 := by omega
  have k5 : c ≠ 5 := by omega
  have k6 : c ≠ 6 := by omega
  have k7 : c ≠ 7 := by omega
  have k8 : c ≠ 8 := by omega
  have k9 : c ≠ 9 := by omega
  simp only [SerialType.get_size]
  rw [if_neg k0, if_neg k1, if_neg k2, if_neg k3, if_neg k4, if_neg k5, if_neg k6,
    if_neg k7, if_neg k8, if_neg k9]

/-- C7 (amended): the serial-type resolver maps every code 0–9 to an
`"int"`-kind pair with lengths 0,1,2,3,4,6,8,8,0,0 (there is no null
kind, and codes 8 and 9 both decode to the integer 0 because their
zero-length body reads as `int.from_bytes(b"") = 0`); every other code —
including the reserved 10 and 11, which are not rejected — maps odd
codes to text of length `(code-13) // 2` and even codes to blob of
length `(code-12) // 2` with floor division. -/
theorem get_size_full_mapping :
    (SerialType.get_size 0 = (0, SerialKind.int) ∧
      SerialType.get_size 1 = (1, SerialKind.int) ∧
      SerialType.get_size 2 = (2, SerialKind.int) ∧
      SerialType.get_size 3 = (3, SerialKind.int) ∧
      SerialType.get_size 4 = (4, SerialKind.int) ∧
      SerialType.get_size 5 = (6, SerialKind.int) ∧
      SerialType.get_size 6 = (8, SerialKind.int) ∧
      SerialType.get_size 7 = (8, SerialKind.int) ∧
      SerialType.get_size 8 = (0, SerialKind.int) ∧
      SerialType.get_size 9 = (0, SerialKind.int)) ∧
    (∀ c : Nat, 10 ≤ c → c % 2 = 1 →
      SerialType.get_size c = (((c : Int) - 13).fdiv 2, SerialKind.text)) ∧
    (∀ c : Nat, 10 ≤ c → c % 2 = 0 →
      SerialType.get_size c = (((c : Int) - 12).fdiv 2, SerialKind.blob)) ∧
    (∀ f : FileHandle,
      (read_record_value_from_file f (SerialType.get_size 8)).1 = PyVal.int 0 ∧
      (read_record_value_from_file f (SerialType.get_size 9)).1 = PyVal.int 0) := by
  refine ⟨by decide, ?_, ?_, ?_⟩
  · intro c h10 hodd
    rw [get_size_ge_ten c h10, if_pos hodd]
  · intro c h10 heven
    rw [get_size_ge_ten c h10, if_neg (by omega)]
  · intro f
    exact ⟨rfl, rfl⟩

/-- Witness for the amended C7 at codes 15 (text of length 1) and 10
(blob of length -1). -/
theorem get_size_full_mapping_witness :
    ((10 : Nat) ≤ 15 ∧ 15 % 2 = 1 ∧ SerialType.get_size 15 = (1, SerialKind.text)) ∧
      ((10 : Nat) ≤ 10 ∧ 10 % 2 = 0 ∧ SerialType.get_size 10 = (-1, SerialKind.blob)) := by
  refine ⟨⟨by decide, by decide, ?_⟩, ⟨by decide, by decide, ?_⟩⟩
  · rw [get_size_full_mapping.2.1 15 (by decide) (by decide)]; decide
  · rw [get_size_full_mapping.2.2.1 10 (by decide) (by decide)]; decide

/-- C7 counterexample: code 0 resolves to the `"int"` kind (not a null
kind); code 9 decodes to the integer 0, not 1; and the reserved codes 10
and 11 are not rejected — they resolve to blob/text descriptors of
length -1. -/
theorem get_size_code_nine_zero :
    SerialType.get_size 0 = (0, SerialKind.int) ∧
      SerialType.get_size 9 = (0, SerialKind.int) ∧
      (read_record_value_from_file ⟨[7, 7], 0⟩ (SerialType.get_size 9)).1 = PyVal.int 0 ∧
      PyVal.int 0 ≠ PyVal.int 1 ∧
      SerialType.get_size 10 = (-1, SerialKind.blob) ∧
      SerialType.get_size 11 = (-1, SerialKind.text) := by
  decide

/-! ## C8 -/

/-- C8 counterexample: on a record whose header (declared length 4)
holds the serial codes `0` and the two-byte varint for code 128, the
format defines 2 columns (the count of varints that fit the header
length, which the spec-modelled counter computes), but `init_record`
builds 3 values — it reads a fixed `header_size - 2 = 2` codes after
discarding one byte, so the two-byte varint makes it overrun into the
record body. -/
theorem init_record_fixed_column_count :
    (Record.init_record ⟨wideHeaderRecordBytes, 0⟩).1.values.length = 3 ∧
      Spec.recordColumnCount wideHeaderRecordBytes 0 = 2 ∧
      (3 : Nat) ≠ 2 ∧
      (Record.init_record ⟨wideHeaderRecordBytes, 0⟩).1.header_size = 4 := by
  decide

/-- C8 (amended): the record decoder derives the column count from the
header-size varint alone, assuming one-byte serial codes: it always
reads exactly `header_size - 2` serial-type codes (each yielding one
value), and always places the cell's row id as the first value,
regardless of the discarded first code and of any schema declaration. -/
theorem init_record_header_size_count (f : FileHandle) :
    ((Record.init_record f).1.values).length
        = (Record.init_record f).1.header_size - 2 + 1 ∧
      ((Record.init_record f).1.values).headD default
        = PyVal.int ((Record.init_record f).1.row_id) ∧
      (Record.init_record f).1.column_sizes.length
        = (Record.init_record f).1.header_size - 2 := by
  refine ⟨?_, ?_, ?_⟩
  · simp [Record.init_record, readValues_length, readSerialTypes_length]
  · simp [Record.init_record]
  · simp [Record.init_record, readSerialTypes_length]

/-! ## C9 -/

/-- C9 counterexample: when the schema catalog roots at an interior page
(page 1 has kind `0x05` with right-most pointer to the catalog leaf page
2), the loader does not walk the B-tree: it reads the cell-pointer array
at the fixed leaf offset 108 — which lands inside the right-most pointer
field and yields location 0 — and decodes an unrelated byte run into an
object named `"xyz"`, while the catalog row actually stored in page 1's
B-tree (the leaf cell at absolute offset 276) names `"fruits"`. -/
theorem loadSchema_interior_page_one_missed :
    (loadSchema interiorCatalogFile).map (fun p => p.1) = [PyVal.str "xyz"] ∧
      (SqliteSchema.get_schema interiorCatalogFile [276]).map (fun p => p.1)
        = [PyVal.str "fruits"] ∧
      (BTreePageHeader.init_header ⟨interiorCatalogFile, 100⟩).1.type = [0x05] ∧
      (BTreePageHeader.init_header ⟨interiorCatalogFile, 100⟩).1.right_most_pointer = 2 := by
  decide

/-- C9 (amended): the loader treats page 1 as a leaf: it parses the
page-1 header at offset 100, reads the cell pointers at offset 108, and
decodes each cell's five columns in the order `type`, `name`,
`table_name`, `rootpage`, `sql`, mapping each object name to its row —
correct exactly when page 1 is a leaf, as on the `fruits` fixture. -/
theorem loadSchema_leaf_catalog :
    mainLocations fruitsFile = [150] ∧
      (loadSchema fruitsFile).map (fun p => p.1) = [PyVal.str "fruits"] ∧
      (pyDictGet (loadSchema fruitsFile) (PyVal.str "fruits")).typ = PyVal.str "table" ∧
      (pyDictGet (loadSchema fruitsFile) (PyVal.str "fruits")).name = PyVal.str "fruits" ∧
      (pyDictGet (loadSchema fruitsFile) (PyVal.str "fruits")).table_name
        = PyVal.str "fruits" ∧
      (pyDictGet (loadSchema fruitsFile) (PyVal.str "fruits")).rootpage = PyVal.int 2 ∧
      (pyDictGet (loadSchema fruitsFile) (PyVal.str "fruits")).sql = PyVal.str fruitsSql ∧
      (pyDictGet (loadSchema fruitsFile) (PyVal.str "fruits")).columns
        = [("id", 0), ("name", 1), ("color", 2)] := by
  decide

/-! ## C2 -/

/-- Masking with `0x7F` is reduction mod 128. -/
theorem and_127 (x : Nat) : x &&& 127 = x % 128 := by
  have h := Nat.and_pow_two_sub_one_eq_mod x 7
  norm_num at h
  exact h

/-- Shifting left by 7 multiplies by 128. -/
theorem shiftLeft_7 (x : Nat) : x <<< 7 = x * 128 := by
  rw [Nat.shiftLeft_eq]

/-- An encoder continuation byte `128 + r % 128` has its continuation
bit set. -/
theorem cont_bit_128add (r : Nat) : ((128 + r % 128) >>> 7) &&& 1 = 1 := by
  rw [Nat.shiftRight_eq_div_pow, Nat.and_one_is_mod]
  have hd : (128 + r % 128) / 2 ^ 7 = 1 := by omega
  rw [hd]

/-- A final encoder byte `v % 128` has its continuation bit clear. -/
theorem cont_bit_low (v : Nat) : ¬((v % 128) >>> 7) &&& 1 = 1 := by
  rw [Nat.shiftRight_eq_div_pow, Nat.and_one_is_mod]
  have hd : v % 128 / 2 ^ 7 = 0 := by omega
  rw [hd]
  decide

/-- Every continuation byte the encoder emits has its high bit set. -/
theorem varintEncodeAux_highbit (u : Nat) :
    ∀ b ∈ varintEncodeAux u, (b >>> 7) &&& 1 = 1 := by
  induction u using Nat.strong_induction_on with
  | _ u ih =>
    intro b hb
    rw [varintEncodeAux] at hb
    by_cases hu : u = 0
    · simp [hu] at hb
    · rw [if_neg hu] at hb
      rcases List.mem_append.mp hb with hmem | hmem
      · exact ih (u / 128) (Nat.div_lt_self (Nat.pos_of_ne_zero hu) (by omega)) b hmem
      · rw [List.mem_singleton.mp hmem]
        exact cont_bit_128add u

/-- Running the decode loop over the continuation bytes of `u` folds
`u` into the accumulator positionally and continues with the tail. -/
theorem parseLoop_encodeAux (u : Nat) :
    ∀ (a : Nat) (tail : List Nat),
      Varint.parseLoop a (varintEncodeAux u ++ tail) =
        Varint.parseLoop (a * 128 ^ (varintEncodeAux u).length + u) tail := by
  induction u using Nat.strong_induction_on with
  | _ u ih =>
    intro a tail
    by_cases hu : u = 0
    · subst hu
      rw [varintEncodeAux]
      simp
    · rw [varintEncodeAux, if_neg hu, List.append_assoc, List.singleton_append]
      rw [ih (u / 128) (Nat.div_lt_self (Nat.pos_of_ne_zero hu) (by omega))]
      have hstep :
          Varint.parseLoop (a * 128 ^ (varintEncodeAux (u / 128)).length + u / 128)
              ((128 + u % 128) :: tail) =
            Varint.parseLoop
              (((a * 128 ^ (varintEncodeAux (u / 128)).length + u / 128) <<< 7)
                + ((128 + u % 128) &&& 127)) tail := by
        rw [Varint.parseLoop]
        simp only [cont_bit_128add u, if_pos]
      rw [hstep, List.length_append, List.length_singleton, and_127, shiftLeft_7]
      congr 1
      rw [pow_succ, ← Nat.mul_assoc]
      generalize a * 128 ^ (varintEncodeAux (u / 128)).length = A
      omega

/-- On a first byte with the continuation bit set, `parse` agrees with
the loop started from accumulator 0. -/
theorem parse_eq_parseLoop (b : Nat) (bs : List Nat) (h : (b >>> 7) &&& 1 = 1) :
    Varint.parse (b :: bs) = Varint.parseLoop 0 (b :: bs) := by
  simp only [Varint.parse, Varint.parseLoop, h, if_true, Nat.zero_shiftLeft, Nat.zero_add]

/-- Decoding an encoded value consumes exactly its bytes and returns it;
this holds for every natural number, with no upper bound. -/
theorem varint_parse_encode (v : Nat) (rest : List Nat) :
    Varint.parse (varintEncode v ++ rest) = (v, rest) := by
  rw [varintEncode, List.append_assoc, List.singleton_append]
  by_cases h : v / 128 = 0
  · have hA : varintEncodeAux (v / 128) = [] := by
      rw [h, varintEncodeAux]
      simp
    rw [hA, List.nil_append]
    simp only [Varint.parse]
    rw [if_neg (cont_bit_low v), and_127]
    have hv : v % 128 % 128 = v := by omega
    rw [hv]
  · cases hE : varintEncodeAux (v / 128) with
    | nil =>
      exfalso
      rw [varintEncodeAux, if_neg h] at hE
      simp at hE
    | cons b bs =>
      have hb : (b >>> 7) &&& 1 = 1 :=
        varintEncodeAux_highbit (v / 128) b (hE ▸ List.mem_cons_self b bs)
      rw [List.cons_append, parse_eq_parseLoop b _ hb, ← List.cons_append, ← hE,
        parseLoop_encodeAux]
      simp only [Varint.parseLoop]
      rw [if_neg (cont_bit_low v), and_127, shiftLeft_7]
      have hv : (0 * 128 ^ (varintEncodeAux (v / 128)).length + v / 128) * 128
          + v % 128 % 128 = v := by omega
      rw [hv]

/-- A value below `128 ^ k` needs at most `k` continuation bytes. -/
theorem varintEncodeAux_length_le (k : Nat) :
    ∀ u : Nat, u < 128 ^ k → (varintEncodeAux u).length ≤ k := by
  induction k with
  | zero =>
    intro u hu
    norm_num at hu
    subst hu
    rw [varintEncodeAux]
    simp
  | succ k ih =>
    intro u hu
    by_cases h0 : u = 0
    · subst h0
      rw [varintEncodeAux]
      simp
    · rw [varintEncodeAux, if_neg h0, List.length_append, List.length_singleton]
      have hlt : u / 128 < 128 ^ k := by
        rw [Nat.div_lt_iff_lt_mul (by omega : 0 < 128)]
        calc u < 128 ^ (k + 1) := hu
          _ = 128 ^ k * 128 := by rw [pow_succ]
      exact Nat.succ_le_succ (ih (u / 128) hlt)

/-- A value at least `128 ^ k` needs more than `k` continuation bytes. -/
theorem varintEncodeAux_length_ge (k : Nat) :
    ∀ u : Nat, 128 ^ k ≤ u → k + 1 ≤ (varintEncodeAux u).length := by
  induction k with
  | zero =>
    intro u hu
    norm_num at hu
    have h0 : u ≠ 0 := by omega
    rw [varintEncodeAux, if_neg h0, List.length_append, List.length_singleton]
    omega
  | succ k ih =>
    intro u hu
    have h0 : u ≠ 0 := by
      have hp : 0 < 128 ^ (k + 1) := pow_pos (by omega) _
      omega
    rw [varintEncodeAux, if_neg h0, List.length_append, List.length_singleton]
    have hle : 128 ^ k ≤ u / 128 := by
      rw [Nat.le_div_iff_mul_le (by omega : 0 < 128)]
      calc 128 ^ k * 128 = 128 ^ (k + 1) := (pow_succ 128 k).symm
        _ ≤ u := hu
    exact Nat.succ_le_succ (ih (u / 128) hle)

/-- C2 (amended): for every value in `[0, 2^64)`, encoding with the
encoder symmetric to the implemented decoder — plain 7-bit groups with a
continuation bit, no special ninth byte — and then decoding returns the
original value, consuming between 1 and 10 bytes, with 10 bytes needed
exactly when bit 63 is set.  Every byte, the ninth and tenth included,
contributes only its low 7 bits. -/
theorem varint_roundtrip_seven_bit_encoder (v : Nat) (h : v < 2 ^ 64) (rest : List Nat) :
    Varint.parse (varintEncode v ++ rest) = (v, rest) ∧
      1 ≤ (varintEncode v).length ∧ (varintEncode v).length ≤ 10 ∧
      ((varintEncode v).length = 10 ↔ 2 ^ 63 ≤ v) := by
  have hlen : (varintEncode v).length = (varintEncodeAux (v / 128)).length + 1 := by
    rw [varintEncode, List.length_append, List.length_singleton]
  refine ⟨varint_parse_encode v rest, by omega, ?_, ?_⟩
  · have : v / 128 < 128 ^ 9 := by
      have : (128 : Nat) ^ 9 = 2 ^ 63 := by norm_num
      omega
    have := varintEncodeAux_length_le 9 (v / 128) this
    omega
  · constructor
    · intro h10
      by_contra hlt
      have hv : v < 2 ^ 63 := by omega
      have hdiv : v / 128 < 128 ^ 8 := by
        have : (128 : Nat) ^ 8 = 2 ^ 56 := by norm_num
        omega
      have := varintEncodeAux_length_le 8 (v / 128) hdiv
      omega
    · intro h63
      have hge : 128 ^ 8 ≤ v / 128 := by
        have h1 : (128 : Nat) ^ 8 = 2 ^ 56 := by norm_num
        have h2 : 2 ^ 56 ≤ v / 128 := by omega
        omega
      have hle9 : (varintEncodeAux (v / 128)).length ≤ 9 := by
        have : v / 128 < 128 ^ 9 := by
          have : (128 : Nat) ^ 9 = 2 ^ 63 := by norm_num
          omega
        exact varintEncodeAux_length_le 9 (v / 128) this
      have := varintEncodeAux_length_ge 8 (v / 128) hge
      omega

/-- C2 counterexample: the decoder gives a ninth byte no special
treatment — on the nine-byte input whose first eight bytes are `0x80`
and whose ninth is `0xFF` it takes only the low 7 bits of the ninth
byte, finds its continuation bit set, and reads on past the end,
returning 16256 instead of the 255 an eight-bit ninth byte would give;
and the value `2^63` (bit 63 set) needs 10 bytes under the symmetric
encoder, not 9. -/
theorem varint_ninth_byte_seven_bits :
    Varint.parse [128, 128, 128, 128, 128, 128, 128, 128, 255] = (16256, []) ∧
      (16256 : Nat) ≠ 255 ∧
      (varintEncode (2 ^ 63)).length = 10 := by
  refine ⟨by decide, by decide, ?_⟩
  have h1 := varintEncodeAux_length_ge 8 (2 ^ 63 / 128) (by norm_num)
  have h2 := varintEncodeAux_length_le 9 (2 ^ 63 / 128) (by norm_num)
  rw [varintEncode, List.length_append, List.length_singleton]
  omega

/-- Witness for the amended C2 at the value 300 (a two-byte varint). -/
theorem varint_roundtrip_witness :
    (300 : Nat) < 2 ^ 64 ∧
      (Varint.parse (varintEncode 300 ++ [9]) = (300, [9]) ∧
        1 ≤ (varintEncode 300).length ∧ (varintEncode 300).length ≤ 10 ∧
        ((varintEncode 300).length = 10 ↔ 2 ^ 63 ≤ 300)) :=
  ⟨by norm_num, varint_roundtrip_seven_bit_encoder 300 (by norm_num) [9]⟩
